import Mathlib

/-!
Shallow embedding of the flight-logging simulator servers: the mapper
(part_000, an airport-id to port directory) and the control (second unit of
roc2310.c, a visit log).  Byte strings are lists of natural numbers; the
relevant byte values are 10 (newline), 13 (carriage return), 33 (bang),
46 (full stop), 58 (colon), 59 (semicolon), 63 (question mark), 64 (at sign).
-/

/-- Byte strings: C strings without the terminating NUL, one natural per byte. -/
abbrev Str := List Nat

/-- Readable byte-string literals. -/
def str (s : String) : Str := s.data.map Char.toNat

/-- C strcmp on NUL-free byte strings, returning the sign of the comparison. -/
def strcmp : Str → Str → Ordering
  | [], [] => Ordering.eq
  | [], _ :: _ => Ordering.lt
  | _ :: _, [] => Ordering.gt
  | a :: as, b :: bs =>
    if a < b then Ordering.lt
    else if b < a then Ordering.gt
    else strcmp as bs

/-- Byte-wise lexicographic less-or-equal: strcmp does not return gt. -/
abbrev sLe (a b : Str) : Prop := strcmp a b ≠ Ordering.gt

/-- Byte-wise lexicographic strictly-less: strcmp returns lt. -/
abbrev sLt (a b : Str) : Prop := strcmp a b = Ordering.lt

/-- isdigit on a byte. -/
def is_digit_byte (c : Nat) : Bool := decide (48 ≤ c ∧ c ≤ 57)

/-- is_integer of part_000: every character is a digit (the part_000 version
returns 1 on the empty string; the separate length check in add_airport
excludes that case there). -/
def is_integer (string : Str) : Bool := string.all is_digit_byte

/-- An airport registry entry: name and port number (struct Airport, part_000). -/
structure Airport where
  name : Str
  portNumber : Str
deriving DecidableEq, Repr

/-- get_airport_index of part_000: index of the first entry whose name
strcmp-equals the given name; none models the C return value -1. -/
def get_airport_index (airportName : Str) : List Airport → Option Nat
  | [] => none
  | a :: rest =>
    if strcmp airportName a.name = Ordering.eq then some 0
    else (get_airport_index airportName rest).map (· + 1)

/-- First token of strtok(command, colon): skip leading colons, then take the
maximal colon-free run; none when the string holds no such run.  (When this is
none the C code passes NULL onward: with an empty registry add_airport then
returns without change, and with a non-empty registry the strcmp call in
get_airport_index dereferences NULL, which is undefined behavior; the model
uses the defined early-return behavior.) -/
def strtok_first (s : Str) : Option Str :=
  if (s.dropWhile (fun c => c == 58)).takeWhile (fun c => !(c == 58)) = [] then none
  else some ((s.dropWhile (fun c => c == 58)).takeWhile (fun c => !(c == 58)))

/-- The rest of the string on which the second strtok(NULL, colon) call
operates: everything from the first colon after the first token. -/
def strtok_rest (s : Str) : Str :=
  (s.dropWhile (fun c => c == 58)).dropWhile (fun c => !(c == 58))

/-- The insertion-point scan shared by add_airport (part_000) and add_plane
(control): starting from index 0, advance while the new key compares
greater-or-equal (strcmp >= 0) to the existing key at the index. -/
def insertion_index {α : Type} (key : α → Str) (k : Str) : List α → Nat
  | [] => 0
  | y :: ys =>
    if strcmp k (key y) ≠ Ordering.lt then insertion_index key k ys + 1 else 0

/-- Shift every element at or after the insertion index one slot right and
write the new element at the insertion index. -/
def insert_ordered {α : Type} (key : α → Str) (x : α) (l : List α) : List α :=
  l.take (insertion_index key (key x) l) ++ x :: l.drop (insertion_index key (key x) l)

/-- The insertion step of add_airport (part_000, lines 260 to 272). -/
def insert_airport_entry (airport : Airport) (airports : List Airport) : List Airport :=
  insert_ordered Airport.name airport airports

/-- add_airport of part_000: tokenize the command with two strtok calls on the
colon delimiter, drop the command when the id is already registered or the
port token is missing or not all digits, otherwise insert the new entry at the
ordered position. -/
def add_airport (command : Str) (airports : List Airport) : List Airport :=
  match strtok_first command with
  | none => airports
  | some airportName =>
    if (get_airport_index airportName airports).isSome then airports
    else
      match strtok_first (strtok_rest command) with
      | none => airports
      | some portNumber =>
        if portNumber.length < 1 ∨ is_integer portNumber = false then airports
        else insert_airport_entry ⟨airportName, portNumber⟩ airports

/-- handle_input of part_000 on one already-truncated message: returns the new
registry and the bytes written to the client stream.  The branch structure
mirrors the C if-chain on message[0] and strcmp(message, at-sign). -/
def handle_input (message : Str) (airports : List Airport) : List Airport × Str :=
  match message with
  | [] => (airports, [])
  | c :: rest =>
    if c = 63 then
      (airports,
        match get_airport_index rest airports with
        | none => [59, 10]
        | some i => (airports.getD i ⟨[], []⟩).portNumber ++ [10])
    else if c = 33 then
      (add_airport rest airports, [])
    else if c :: rest = [64] then
      (airports, (airports.map (fun a => a.name ++ 58 :: a.portNumber ++ [10])).flatten)
    else
      (airports, [])

/-- The lookup view of the question-mark branch: the port number stored at the
index that get_airport_index returns. -/
def lookup_port (id : Str) (airports : List Airport) : Option Str :=
  (get_airport_index id airports).map (fun i => (airports.getD i ⟨[], []⟩).portNumber)

/-- One iteration of the mapper client_handler on one received line (the raw
bytes fgets returned): the final byte is overwritten with NUL unconditionally,
then question-mark or bang messages shorter than two characters are ignored,
and everything else goes to handle_input. -/
def mapper_step (airports : List Airport) (line : Str) : List Airport × Str :=
  if (line.dropLast.head? = some 63 ∨ line.dropLast.head? = some 33) ∧
      line.dropLast.length < 2 then
    (airports, [])
  else
    handle_input line.dropLast airports

/-- Mapper registry states reachable from the empty registry by a
lock-serialized sequence of received lines (across any number of handlers). -/
def mapper_run (lines : List Str) : List Airport :=
  lines.foldl (fun l line => (mapper_step l line).1) []

/-- verify_message of roc2310.c (identical in both units): at least two
characters, newline terminated, and no newline, carriage return or colon
before the terminator. -/
def verify_message (s : Str) : Bool :=
  decide (2 ≤ s.length) && (s.getLast? == some 10) &&
    s.dropLast.all (fun c => !(c == 10) && !(c == 13) && !(c == 58))

/-- add_plane of the control: the same insertion-point scan and shift as the
add_airport insertion step, on bare plane ids. -/
def add_plane (plane : Str) (planes : List Str) : List Str :=
  insert_ordered (fun p => p) plane planes

/-- One iteration of the control client_handler on one received line: returns
the new log registry, the bytes written, and whether the handler breaks out of
its loop (closing the connection).  Invalid lines are ignored; the literal
line log prints every entry then a full-stop line and breaks; any other valid
line answers with the info string and logs the id. -/
def control_step (planes : List Str) (info : Str) (line : Str) :
    List Str × Str × Bool :=
  if verify_message line = false then
    (planes, [], false)
  else if line.dropLast = str "log" then
    (planes, (planes.map (fun p => p ++ [10])).flatten ++ [46, 10], true)
  else
    (add_plane line.dropLast planes, info ++ [10], false)

/-- Control log states reachable from the empty log by a lock-serialized
sequence of received lines (across any number of handlers). -/
def control_run (info : Str) (lines : List Str) : List Str :=
  lines.foldl (fun pl line => (control_step pl info line).1) []

/-- Observable handler events, for the locking-discipline claims. -/
inductive Ev where
  | acquire
  | release
  | regOp
  | netWrite
  | netRead
deriving DecidableEq, Repr

/-- The events of one handle_input dispatch, in source order: the lookup
branch reads the registry then writes a reply, the bang branch only touches
the registry, the enumeration branch reads the registry and writes, and
unrecognized messages do nothing. -/
def handle_input_events (message : Str) : List Ev :=
  match message with
  | [] => []
  | c :: rest =>
    if c = 63 then [Ev.regOp, Ev.netWrite]
    else if c = 33 then [Ev.regOp]
    else if c :: rest = [64] then [Ev.regOp, Ev.netWrite]
    else []

/-- Event trace of the mapper client_handler over a list of received lines:
read, then (unless the line is ignored) take the lock, dispatch inside the
critical section, release the lock, and loop. -/
def mapper_handler_events : List Str → List Ev
  | [] => []
  | line :: rest =>
    Ev.netRead ::
      (if (line.dropLast.head? = some 63 ∨ line.dropLast.head? = some 33) ∧
           line.dropLast.length < 2 then
         mapper_handler_events rest
       else
         Ev.acquire :: handle_input_events line.dropLast ++
           Ev.release :: mapper_handler_events rest)

/-- Event trace of the control client_handler over a list of received lines:
read, skip invalid lines, and otherwise take the lock; the log branch reads
the registry, writes the response and breaks while still holding the lock;
every other valid line writes the info string, updates the registry, releases
the lock and loops. -/
def control_handler_events : List Str → List Ev
  | [] => []
  | line :: rest =>
    Ev.netRead ::
      (if verify_message line = false then
         control_handler_events rest
       else if line.dropLast = str "log" then
         [Ev.acquire, Ev.regOp, Ev.netWrite]
       else
         Ev.acquire :: Ev.netWrite :: Ev.regOp :: Ev.release :: control_handler_events rest)

/-- Lock balance after a trace, starting from a given hold count. -/
def held_after : Nat → List Ev → Nat
  | n, [] => n
  | n, Ev.acquire :: t => held_after (n + 1) t
  | n, Ev.release :: t => held_after (n - 1) t
  | n, _ :: t => held_after n t

/-- Every network read in the trace happens with the lock not held. -/
def reads_unlocked_from : Nat → List Ev → Bool
  | _, [] => true
  | n, Ev.acquire :: t => reads_unlocked_from (n + 1) t
  | n, Ev.release :: t => reads_unlocked_from (n - 1) t
  | n, Ev.netRead :: t => (n == 0) && reads_unlocked_from n t
  | n, _ :: t => reads_unlocked_from n t

/-- Every network write in the trace happens with the lock held. -/
def writes_locked_from : Nat → List Ev → Bool
  | _, [] => true
  | n, Ev.acquire :: t => writes_locked_from (n + 1) t
  | n, Ev.release :: t => writes_locked_from (n - 1) t
  | n, Ev.netWrite :: t => (!(n == 0)) && writes_locked_from n t
  | n, _ :: t => writes_locked_from n t

/-- Every network read and write in the trace happens with the lock not held
(the discipline claim C1 asserts). -/
def io_unlocked_from : Nat → List Ev → Bool
  | _, [] => true
  | n, Ev.acquire :: t => io_unlocked_from (n + 1) t
  | n, Ev.release :: t => io_unlocked_from (n - 1) t
  | n, Ev.netRead :: t => (n == 0) && io_unlocked_from n t
  | n, Ev.netWrite :: t => (n == 0) && io_unlocked_from n t
  | n, _ :: t => io_unlocked_from n t

/-- A trace releases the lock as often as it takes it. -/
def lock_balanced (t : List Ev) : Bool := held_after 0 t == 0

/-- Whole-trace views starting outside the critical section. -/
def reads_unlocked (t : List Ev) : Bool := reads_unlocked_from 0 t

/-- Every write of the trace is inside a critical section. -/
def writes_locked (t : List Ev) : Bool := writes_locked_from 0 t

/-- All network activity of the trace is outside critical sections. -/
def io_unlocked (t : List Ev) : Bool := io_unlocked_from 0 t

/-- Whether some received line is a valid log command (the control handler
stops at the first one). -/
def has_log_command (lines : List Str) : Bool :=
  lines.any (fun line => verify_message line && (line.dropLast == str "log"))

/-- maxAirports of the mapper main: 1000. -/
def maxAirports : Nat := 1000

/-- maxPlanes of the control main: 1000. -/
def maxPlanes : Nat := 1000

/-- Handler threads spawned by the accept loop: the loop body runs exactly cap
times, calls accept once per iteration, and spawns one handler whenever the
returned descriptor is non-negative; results lists the accept return values. -/
def accept_loop_spawns (results : Nat → Int) (cap : Nat) : Nat :=
  (List.range cap).countP (fun i => decide (0 ≤ results i))

/-- Decimal value of a digit string. -/
def str_to_nat (s : Str) : Nat := s.foldl (fun acc c => acc * 10 + (c - 48)) 0

/-- Modelled from the spec: port validity exactly as the specification words
it — a non-empty all-digit string whose integer value lies in [1, 65535]. -/
def spec_valid_port (s : Str) : Bool :=
  decide (s ≠ []) && s.all is_digit_byte &&
    decide (1 ≤ str_to_nat s) && decide (str_to_nat s ≤ 65535)

/-- Modelled from the spec: the registration condition exactly as claim C3
words it — the payload holds a single colon separating a non-empty id from a
valid port. -/
def spec_registration_ok (payload : Str) : Bool :=
  decide (payload.count 58 = 1) &&
    decide (payload.takeWhile (fun c => !(c == 58)) ≠ []) &&
    spec_valid_port ((payload.dropWhile (fun c => !(c == 58))).tail)

/-- The registration payloads the amended claim C3 accepts: any run of leading
colons, a colon-free non-empty id, a separating run of at least one colon, a
colon-free non-empty port token, and a remainder that is empty or starts with
a colon (and is ignored). -/
def amended_reg_shape (payload name port : Str) : Prop :=
  ∃ i j rest, payload = List.replicate i 58 ++ name ++ List.replicate j 58 ++ port ++ rest ∧
    name ≠ [] ∧ 58 ∉ name ∧ port ≠ [] ∧ 58 ∉ port ∧ 1 ≤ j ∧
    (rest = [] ∨ rest.head? = some 58)

/-- The invariant of reachable mapper registries: names are sorted, have no
duplicates, and every stored name is a non-empty colon-free strtok token. -/
def mapper_inv (l : List Airport) : Prop :=
  (l.map Airport.name).Pairwise sLe ∧ (l.map Airport.name).Nodup ∧
    ∀ a ∈ l, a.name ≠ [] ∧ 58 ∉ a.name

/- ======================  theorems: helper lemmas  ====================== -/

theorem strcmp_eq_iff : ∀ a b : Str, strcmp a b = Ordering.eq ↔ a = b := by
  intro a
  induction a with
  | nil =>
    intro b
    cases b <;> simp [strcmp]
  | cons x xs ih =>
    intro b
    cases b with
    | nil => simp [strcmp]
    | cons y ys =>
      by_cases h1 : x < y
      · simp [strcmp, h1]
        omega
      · by_cases h2 : y < x
        · simp [strcmp, h1, h2]
          omega
        · have hxy : x = y := by omega
          simp [strcmp, h1, h2, hxy, ih ys]

theorem strcmp_gt_iff : ∀ a b : Str, strcmp a b = Ordering.gt ↔ strcmp b a = Ordering.lt := by
  intro a
  induction a with
  | nil =>
    intro b
    cases b <;> simp [strcmp]
  | cons x xs ih =>
    intro b
    cases b with
    | nil => simp [strcmp]
    | cons y ys =>
      by_cases h1 : x < y
      · have h2 : ¬ y < x := by omega
        simp [strcmp, h1, h2]
      · by_cases h2 : y < x
        · simp [strcmp, h1, h2]
        · simp [strcmp, h1, h2, ih ys]

theorem sLt_trans_sLe : ∀ a b c : Str, sLt a b → sLe b c → sLt a c := by
  intro a
  induction a with
  | nil =>
    intro b c hab hbc
    cases b with
    | nil => simp [sLt, strcmp] at hab
    | cons y ys =>
      cases c with
      | nil => simp [sLe, strcmp] at hbc
      | cons z zs => simp [sLt, strcmp]
  | cons x xs ih =>
    intro b c hab hbc
    cases b with
    | nil => simp [sLt, strcmp] at hab
    | cons y ys =>
      cases c with
      | nil => simp [sLe, strcmp] at hbc
      | cons z zs =>
        simp only [sLt, sLe, strcmp] at hab hbc ⊢
        by_cases hxy : x < y
        · by_cases hyz : y < z
          · have : x < z := by omega
            simp [this]
          · by_cases hzy : z < y
            · simp [hyz, hzy] at hbc
            · have : y = z := by omega
              subst this
              simp [hxy]
        · by_cases hyx : y < x
          · simp [hxy, hyx] at hab
          · have hxyeq : x = y := by omega
            subst hxyeq
            simp only [lt_irrefl, if_false] at hab
            by_cases hxz : x < z
            · simp [hxz]
            · by_cases hzx : z < x
              · simp [hxz, hzx] at hbc
              · simp only [hxz, hzx, if_false]
                simp only [hxz, hzx, if_false] at hbc
                exact ih ys zs hab hbc

theorem sLt_sLe : ∀ a b : Str, sLt a b → sLe a b := by
  intro a b h
  simp [sLe, sLt] at *
  simp [h]

theorem not_sLt_sLe : ∀ a b : Str, ¬ sLt a b → sLe b a := by
  intro a b h
  simp only [sLe, sLt] at *
  intro hgt
  exact h ((strcmp_gt_iff b a).mp hgt)

theorem insert_ordered_cons {α : Type} (key : α → Str) (x y : α) (ys : List α) :
    insert_ordered key x (y :: ys) =
      if strcmp (key x) (key y) ≠ Ordering.lt then y :: insert_ordered key x ys
      else x :: y :: ys := by
  by_cases h : strcmp (key x) (key y) ≠ Ordering.lt
  · simp [insert_ordered, insertion_index, h]
  · simp [insert_ordered, insertion_index, h]

theorem insert_ordered_perm {α : Type} (key : α → Str) (x : α) :
    ∀ l : List α, (insert_ordered key x l).Perm (x :: l) := by
  intro l
  induction l with
  | nil => simp [insert_ordered, insertion_index]
  | cons y ys ih =>
    rw [insert_ordered_cons]
    by_cases h : strcmp (key x) (key y) ≠ Ordering.lt
    · rw [if_pos h]
      exact ((ih.cons y).trans (List.Perm.swap x y ys))
    · simp [h]

theorem insert_ordered_length {α : Type} (key : α → Str) (x : α) (l : List α) :
    (insert_ordered key x l).length = l.length + 1 := by
  have := (insert_ordered_perm key x l).length_eq
  simpa using this

theorem insert_ordered_sublist {α : Type} (key : α → Str) (x : α) (l : List α) :
    l.Sublist (insert_ordered key x l) := by
  unfold insert_ordered
  conv_lhs => rw [← List.take_append_drop (insertion_index key (key x) l) l]
  exact List.Sublist.append (List.Sublist.refl _) (List.sublist_cons_self x _)

theorem insert_ordered_decomp {α : Type} (key : α → Str) (x : α) :
    ∀ l : List α, l.Pairwise (fun a b => sLe (key a) (key b)) →
      ∃ l1 l2, l = l1 ++ l2 ∧ (∀ y ∈ l1, sLe (key y) (key x)) ∧
        (∀ y ∈ l2, sLt (key x) (key y)) ∧
        insert_ordered key x l = l1 ++ x :: l2 := by
  intro l
  induction l with
  | nil =>
    intro _
    exact ⟨[], [], by simp, by simp, by simp, by simp [insert_ordered, insertion_index]⟩
  | cons y ys ih =>
    intro hp
    rw [List.pairwise_cons] at hp
    by_cases h : strcmp (key x) (key y) ≠ Ordering.lt
    · obtain ⟨l1, l2, hsplit, h1, h2, hins⟩ := ih hp.2
      refine ⟨y :: l1, l2, by simp [hsplit], ?_, h2, ?_⟩
      · intro z hz
        rcases List.mem_cons.mp hz with hz | hz
        · subst hz
          exact not_sLt_sLe _ _ h
        · exact h1 z hz
      · rw [insert_ordered_cons, if_pos h, hins]
        simp
    · push_neg at h
      refine ⟨[], y :: ys, by simp, by simp, ?_, ?_⟩
      · intro z hz
        rcases List.mem_cons.mp hz with hz | hz
        · subst hz; exact h
        · exact sLt_trans_sLe _ _ _ h (hp.1 z hz)
      · rw [insert_ordered_cons, if_neg (by simpa using h)]
        simp

theorem insert_ordered_pairwise {α : Type} (key : α → Str) (x : α) (l : List α)
    (hp : l.Pairwise (fun a b => sLe (key a) (key b))) :
    (insert_ordered key x l).Pairwise (fun a b => sLe (key a) (key b)) := by
  obtain ⟨l1, l2, hsplit, h1, h2, hins⟩ := insert_ordered_decomp key x l hp
  subst hsplit
  rw [hins]
  rw [List.pairwise_append] at hp ⊢
  refine ⟨hp.1, ?_, ?_⟩
  · rw [List.pairwise_cons]
    exact ⟨fun z hz => sLt_sLe _ _ (h2 z hz), hp.2.1⟩
  · intro a ha b hb
    rcases List.mem_cons.mp hb with hb | hb
    · subst hb
      exact h1 a ha
    · exact hp.2.2 a ha b hb

theorem insert_ordered_map_key {α : Type} (key : α → Str) (x : α) (l : List α) :
    (insert_ordered key x l).map key = insert_ordered (fun s => s) (key x) (l.map key) := by
  induction l with
  | nil => simp [insert_ordered, insertion_index]
  | cons y ys ih =>
    rw [insert_ordered_cons, List.map_cons, insert_ordered_cons]
    by_cases h : strcmp (key x) (key y) ≠ Ordering.lt
    · rw [if_pos h, if_pos h, List.map_cons, ih]
    · simp [h]

theorem mem_takeWhile_pred {p : Nat → Bool} :
    ∀ l : Str, ∀ c ∈ l.takeWhile p, p c = true := by
  intro l
  induction l with
  | nil => simp
  | cons a t ih =>
    intro c hc
    rw [List.takeWhile_cons] at hc
    by_cases hpa : p a
    · simp only [hpa, if_true] at hc
      rcases List.mem_cons.mp hc with hc | hc
      · subst hc; exact hpa
      · exact ih c hc
    · simp [hpa] at hc

theorem takeWhile_all_eq {p : Nat → Bool} :
    ∀ l : Str, (∀ c ∈ l, p c = true) → l.takeWhile p = l := by
  intro l
  induction l with
  | nil => simp
  | cons a t ih =>
    intro h
    rw [List.takeWhile_cons, if_pos (h a (by simp))]
    rw [ih (fun c hc => h c (by simp [hc]))]

theorem takeWhile_append_stop {p : Nat → Bool} :
    ∀ (a : Str) (b : Nat) (r : Str), (∀ c ∈ a, p c = true) → p b = false →
      ((a ++ b :: r).takeWhile p) = a := by
  intro a
  induction a with
  | nil =>
    intro b r _ hb
    simp [List.takeWhile_cons, hb]
  | cons x xs ih =>
    intro b r ha hb
    rw [List.cons_append, List.takeWhile_cons, if_pos (ha x (by simp))]
    rw [ih b r (fun c hc => ha c (by simp [hc])) hb]

theorem dropWhile_append_stop {p : Nat → Bool} :
    ∀ (a : Str) (b : Nat) (r : Str), (∀ c ∈ a, p c = true) → p b = false →
      ((a ++ b :: r).dropWhile p) = b :: r := by
  intro a
  induction a with
  | nil =>
    intro b r _ hb
    simp [List.dropWhile_cons, hb]
  | cons x xs ih =>
    intro b r ha hb
    rw [List.cons_append, List.dropWhile_cons, if_pos (ha x (by simp))]
    exact ih b r (fun c hc => ha c (by simp [hc])) hb

theorem dropWhile_all_eq {p : Nat → Bool} :
    ∀ l : Str, (∀ c ∈ l, p c = true) → l.dropWhile p = [] := by
  intro l
  induction l with
  | nil => simp
  | cons a t ih =>
    intro h
    rw [List.dropWhile_cons, if_pos (h a (by simp))]
    exact ih (fun c hc => h c (by simp [hc]))

theorem dropWhile_head_false {p : Nat → Bool} :
    ∀ (l : Str) (c : Nat) (t : Str), l.dropWhile p = c :: t → p c = false := by
  intro l
  induction l with
  | nil => intro c t h; simp at h
  | cons a as ih =>
    intro c t h
    rw [List.dropWhile_cons] at h
    by_cases hpa : p a
    · rw [if_pos hpa] at h
      exact ih c t h
    · rw [if_neg hpa] at h
      cases h
      simpa using hpa

theorem replicate_colons_dropWhile :
    ∀ (i : Nat) (r : Str),
      ((List.replicate i 58 ++ r).dropWhile (fun c => c == 58)) =
        r.dropWhile (fun c => c == 58) := by
  intro i
  induction i with
  | zero => intro r; simp
  | succ n ih =>
    intro r
    rw [List.replicate_succ, List.cons_append, List.dropWhile_cons]
    simp only [beq_self_eq_true, if_true]
    exact ih r

theorem strtok_first_eq_some_iff (s t : Str) :
    strtok_first s = some t ↔
      ((s.dropWhile (fun c => c == 58)).takeWhile (fun c => !(c == 58)) = t ∧ t ≠ []) := by
  unfold strtok_first
  by_cases h : (s.dropWhile (fun c => c == 58)).takeWhile (fun c => !(c == 58)) = []
  · rw [if_pos h]
    constructor
    · intro hc; cases hc
    · rintro ⟨h1, h2⟩; exact absurd (h1 ▸ h) h2
  · rw [if_neg h]
    constructor
    · intro hc; cases hc; exact ⟨rfl, h⟩
    · rintro ⟨h1, _⟩; rw [h1]

theorem strtok_token_shape (s t : Str) (h : strtok_first s = some t) :
    t ≠ [] ∧ 58 ∉ t := by
  rw [strtok_first_eq_some_iff] at h
  obtain ⟨ht, hne⟩ := h
  refine ⟨hne, ?_⟩
  intro hmem
  rw [← ht] at hmem
  have := mem_takeWhile_pred _ 58 hmem
  simp at this

theorem dropWhile_colons_stop (name r : Str) (hne : name ≠ []) (hnc : 58 ∉ name) :
    ((name ++ r).dropWhile (fun c => c == 58)) = name ++ r := by
  cases name with
  | nil => exact absurd rfl hne
  | cons c t =>
    have hcne : ¬ ((c == 58) = true) := by
      simp only [beq_iff_eq]
      intro h
      exact hnc (by simp [h])
    rw [List.cons_append, List.dropWhile_cons, if_neg hcne]

theorem strtok_first_clean_sep (id r : Str) (hne : id ≠ []) (hnc : 58 ∉ id) :
    strtok_first (id ++ 58 :: r) = some id := by
  rw [strtok_first_eq_some_iff]
  refine ⟨?_, hne⟩
  rw [dropWhile_colons_stop id (58 :: r) hne hnc]
  apply takeWhile_append_stop
  · intro c hc
    have : c ≠ 58 := fun h => hnc (h ▸ hc)
    simp [this]
  · simp


theorem tokens_to_shape (payload name port : Str)
    (h1 : strtok_first payload = some name)
    (h2 : strtok_first (strtok_rest payload) = some port) :
    amended_reg_shape payload name port := by
  rw [strtok_first_eq_some_iff] at h1 h2
  obtain ⟨hn, hnne⟩ := h1
  obtain ⟨hp, hpne⟩ := h2
  have hP : payload.takeWhile (fun c => c == 58) ++ payload.dropWhile (fun c => c == 58) =
      payload := List.takeWhile_append_dropWhile _ _
  have hirep : payload.takeWhile (fun c => c == 58) =
      List.replicate (payload.takeWhile (fun c => c == 58)).length 58 := by
    apply List.eq_replicate_of_mem
    intro b hb
    simpa using mem_takeWhile_pred _ b hb
  have hdsplit :
      name ++ strtok_rest payload = payload.dropWhile (fun c => c == 58) := by
    rw [← hn]
    exact List.takeWhile_append_dropWhile _ _
  have hnnc : 58 ∉ name := by
    intro hmem
    rw [← hn] at hmem
    simpa using mem_takeWhile_pred _ 58 hmem
  have hjrep : (strtok_rest payload).takeWhile (fun c => c == 58) =
      List.replicate ((strtok_rest payload).takeWhile (fun c => c == 58)).length 58 := by
    apply List.eq_replicate_of_mem
    intro b hb
    simpa using mem_takeWhile_pred _ b hb
  have hd2split :
      (strtok_rest payload).takeWhile (fun c => c == 58) ++
        (strtok_rest payload).dropWhile (fun c => c == 58) = strtok_rest payload :=
    List.takeWhile_append_dropWhile _ _
  have hesplit :
      port ++ ((strtok_rest payload).dropWhile (fun c => c == 58)).dropWhile
          (fun c => !(c == 58)) =
        (strtok_rest payload).dropWhile (fun c => c == 58) := by
    rw [← hp]
    exact List.takeWhile_append_dropWhile _ _
  have hpnc : 58 ∉ port := by
    intro hmem
    rw [← hp] at hmem
    simpa using mem_takeWhile_pred _ 58 hmem
  have hd2ne : strtok_rest payload ≠ [] := by
    intro hnil
    apply hpne
    rw [← hp, hnil]
    simp
  have hjpos : 1 ≤ ((strtok_rest payload).takeWhile (fun c => c == 58)).length := by
    cases hcase : strtok_rest payload with
    | nil => exact absurd hcase hd2ne
    | cons c t =>
      have hcfalse : (fun x => !(x == 58)) c = false := by
        refine dropWhile_head_false (p := fun x => !(x == 58))
          (payload.dropWhile (fun c => c == 58)) c t ?_
        exact hcase
      have hc58 : (c == 58) = true := by simpa using hcfalse
      rw [List.takeWhile_cons, if_pos hc58]
      simp
  have hrestcase :
      ((strtok_rest payload).dropWhile (fun c => c == 58)).dropWhile (fun c => !(c == 58)) =
          [] ∨
        (((strtok_rest payload).dropWhile (fun c => c == 58)).dropWhile
            (fun c => !(c == 58))).head? = some 58 := by
    cases hcase :
        ((strtok_rest payload).dropWhile (fun c => c == 58)).dropWhile
          (fun c => !(c == 58)) with
    | nil => exact Or.inl rfl
    | cons c t =>
      right
      have hcfalse : (fun x => !(x == 58)) c = false :=
        dropWhile_head_false _ c t hcase
      have hc58 : c = 58 := by simpa using hcfalse
      simp [hc58]
  have key : payload =
      payload.takeWhile (fun c => c == 58) ++ (name ++
        ((strtok_rest payload).takeWhile (fun c => c == 58) ++ (port ++
          (((strtok_rest payload).dropWhile (fun c => c == 58)).dropWhile
            (fun c => !(c == 58)))))) := by
    rw [hesplit, hd2split, hdsplit, hP]
  rw [hirep] at key
  rw [hjrep] at key
  refine ⟨(payload.takeWhile (fun c => c == 58)).length,
    ((strtok_rest payload).takeWhile (fun c => c == 58)).length,
    ((strtok_rest payload).dropWhile (fun c => c == 58)).dropWhile (fun c => !(c == 58)),
    ?_, hnne, hnnc, hpne, hpnc, hjpos, hrestcase⟩
  exact key.trans (by simp [List.append_assoc])

theorem shape_to_tokens (payload name port : Str)
    (h : amended_reg_shape payload name port) :
    strtok_first payload = some name ∧ strtok_first (strtok_rest payload) = some port := by
  obtain ⟨i, j, rest, hpay, hnne, hnnc, hpne, hpnc, hj, hrest⟩ := h
  obtain ⟨j', rfl⟩ : ∃ m, j = m + 1 := ⟨j - 1, by omega⟩
  have name_pred : ∀ c ∈ name, (fun x => !(x == 58)) c = true := by
    intro c hc
    have : c ≠ 58 := fun hh => hnnc (hh ▸ hc)
    simp [this]
  have port_pred : ∀ c ∈ port, (fun x => !(x == 58)) c = true := by
    intro c hc
    have : c ≠ 58 := fun hh => hpnc (hh ▸ hc)
    simp [this]
  have hpay3 : payload =
      List.replicate i 58 ++ (name ++ (58 :: (List.replicate j' 58 ++ (port ++ rest)))) := by
    rw [hpay]
    simp [List.replicate_succ, List.append_assoc]
  have hdw : payload.dropWhile (fun c => c == 58) =
      name ++ (58 :: (List.replicate j' 58 ++ (port ++ rest))) := by
    rw [hpay3, replicate_colons_dropWhile,
      dropWhile_colons_stop name _ hnne hnnc]
  have ht1 : (payload.dropWhile (fun c => c == 58)).takeWhile (fun c => !(c == 58)) = name := by
    rw [hdw]
    exact takeWhile_append_stop name 58 _ name_pred (by simp)
  have hrest2 : strtok_rest payload = 58 :: (List.replicate j' 58 ++ (port ++ rest)) := by
    unfold strtok_rest
    rw [hdw]
    exact dropWhile_append_stop name 58 _ name_pred (by simp)
  constructor
  · rw [strtok_first_eq_some_iff]
    exact ⟨ht1, hnne⟩
  · rw [strtok_first_eq_some_iff]
    refine ⟨?_, hpne⟩
    rw [hrest2]
    have hfold : (58 :: (List.replicate j' 58 ++ (port ++ rest))) =
        List.replicate (j' + 1) 58 ++ (port ++ rest) := by
      simp [List.replicate_succ]
    rw [hfold, replicate_colons_dropWhile, dropWhile_colons_stop port rest hpne hpnc]
    rcases hrest with hre | hre
    · rw [hre, List.append_nil]
      exact takeWhile_all_eq port port_pred
    · obtain ⟨r2, hr2⟩ : ∃ r2, rest = 58 :: r2 := by
        cases rest with
        | nil => simp at hre
        | cons c t =>
          simp only [List.head?] at hre
          cases hre
          exact ⟨t, rfl⟩
      rw [hr2]
      exact takeWhile_append_stop port 58 r2 port_pred (by simp)

theorem strcmp_self (a : Str) : strcmp a a = Ordering.eq :=
  (strcmp_eq_iff a a).mpr rfl

theorem get_airport_index_none_iff :
    ∀ (l : List Airport) (id : Str),
      get_airport_index id l = none ↔ id ∉ l.map Airport.name := by
  intro l
  induction l with
  | nil => intro id; simp [get_airport_index]
  | cons a t ih =>
    intro id
    by_cases h : strcmp id a.name = Ordering.eq
    · rw [strcmp_eq_iff] at h
      subst h
      simp [get_airport_index, strcmp_self]
    · have hne : id ≠ a.name := fun hh => h ((strcmp_eq_iff id a.name).mpr hh)
      simp [get_airport_index, h, hne, ih id]

theorem get_airport_index_find :
    ∀ (l : List Airport) (id : Str),
      (get_airport_index id l).map (fun i => l.getD i ⟨[], []⟩) =
        l.find? (fun a => a.name == id) := by
  intro l
  induction l with
  | nil => intro id; simp [get_airport_index]
  | cons a t ih =>
    intro id
    by_cases h : strcmp id a.name = Ordering.eq
    · rw [strcmp_eq_iff] at h
      subst h
      have hb : (a.name == a.name) = true := by simp
      simp [get_airport_index, strcmp_self, List.find?_cons_of_pos, hb]
    · have hne : a.name ≠ id := by
        intro hh
        exact h ((strcmp_eq_iff id a.name).mpr hh.symm)
      have hb : (a.name == id) = false := by simp [hne]
      rw [List.find?]
      rw [hb]
      rw [← ih id]
      simp only [get_airport_index, h, if_neg h]
      cases get_airport_index id t with
      | none => simp
      | some i => simp

theorem handle_input_fst :
    ∀ (m : Str) (l : List Airport),
      (handle_input m l).1 = l ∨
        ∃ payload, m = 33 :: payload ∧ (handle_input m l).1 = add_airport payload l := by
  intro m l
  cases m with
  | nil => exact Or.inl rfl
  | cons c rest =>
    by_cases h63 : c = 63
    · left; simp [handle_input, h63]
    · by_cases h33 : c = 33
      · right
        exact ⟨rest, by rw [h33], by simp [handle_input, h63, h33]⟩
      · by_cases h64 : c :: rest = [64]
        · left; simp [handle_input, h63, h33, h64]
        · left; simp [handle_input, h63, h33, h64]

theorem add_airport_cases :
    ∀ (cmd : Str) (l : List Airport),
      add_airport cmd l = l ∨
        ∃ name port, strtok_first cmd = some name ∧
          strtok_first (strtok_rest cmd) = some port ∧
          get_airport_index name l = none ∧ is_integer port = true ∧
          add_airport cmd l = insert_airport_entry ⟨name, port⟩ l := by
  intro cmd l
  unfold add_airport
  split
  next => exact Or.inl rfl
  next name h1 =>
    by_cases h2 : (get_airport_index name l).isSome
    · rw [if_pos h2]
      exact Or.inl rfl
    · rw [if_neg h2]
      split
      next => exact Or.inl rfl
      next port h3 =>
        by_cases h4 : port.length < 1 ∨ is_integer port = false
        · rw [if_pos h4]
          exact Or.inl rfl
        · rw [if_neg h4]
          push_neg at h4
          right
          exact ⟨name, port, h1, h3, Option.not_isSome_iff_eq_none.mp h2,
            by simpa using h4.2, rfl⟩

theorem mapper_inv_insert (name port : Str) (l : List Airport)
    (h : mapper_inv l) (habs : get_airport_index name l = none)
    (hne : name ≠ []) (hnc : 58 ∉ name) :
    mapper_inv (insert_airport_entry ⟨name, port⟩ l) := by
  obtain ⟨hsorted, hnodup, htok⟩ := h
  have hperm : (insert_airport_entry ⟨name, port⟩ l).Perm (⟨name, port⟩ :: l) :=
    insert_ordered_perm Airport.name ⟨name, port⟩ l
  refine ⟨?_, ?_, ?_⟩
  · rw [List.pairwise_map] at hsorted ⊢
    exact insert_ordered_pairwise Airport.name ⟨name, port⟩ l hsorted
  · rw [(hperm.map Airport.name).nodup_iff]
    rw [List.map_cons, List.nodup_cons]
    exact ⟨(get_airport_index_none_iff l name).mp habs, hnodup⟩
  · intro a ha
    have := hperm.mem_iff.mp ha
    rcases List.mem_cons.mp this with hh | hh
    · rw [hh]
      exact ⟨hne, hnc⟩
    · exact htok a hh

theorem add_airport_inv (cmd : Str) (l : List Airport) (h : mapper_inv l) :
    mapper_inv (add_airport cmd l) := by
  rcases add_airport_cases cmd l with hc | ⟨name, port, h1, _, habs, _, heq⟩
  · rw [hc]; exact h
  · rw [heq]
    obtain ⟨hne, hnc⟩ := strtok_token_shape cmd name h1
    exact mapper_inv_insert name port l h habs hne hnc

theorem mapper_step_inv (line : Str) (l : List Airport) (h : mapper_inv l) :
    mapper_inv (mapper_step l line).1 := by
  unfold mapper_step
  by_cases hc :
      (line.dropLast.head? = some 63 ∨ line.dropLast.head? = some 33) ∧
        line.dropLast.length < 2
  · rw [if_pos hc]; exact h
  · rw [if_neg hc]
    rcases handle_input_fst line.dropLast l with hh | ⟨payload, _, hh⟩
    · rw [hh]; exact h
    · rw [hh]; exact add_airport_inv payload l h

theorem mapper_run_inv_aux :
    ∀ (lines : List Str) (l : List Airport), mapper_inv l →
      mapper_inv (lines.foldl (fun acc line => (mapper_step acc line).1) l) := by
  intro lines
  induction lines with
  | nil => intro l h; exact h
  | cons line rest ih =>
    intro l h
    exact ih _ (mapper_step_inv line l h)

theorem mapper_run_inv (lines : List Str) : mapper_inv (mapper_run lines) := by
  apply mapper_run_inv_aux
  exact ⟨List.Pairwise.nil, List.nodup_nil, by simp⟩

theorem control_step_fst (planes : List Str) (info line : Str) :
    (control_step planes info line).1 = planes ∨
      (verify_message line = true ∧ line.dropLast ≠ str "log" ∧
        (control_step planes info line).1 = add_plane line.dropLast planes) := by
  unfold control_step
  by_cases hv : verify_message line = false
  · rw [if_pos hv]
    exact Or.inl rfl
  · rw [if_neg hv]
    by_cases hl : line.dropLast = str "log"
    · rw [if_pos hl]
      exact Or.inl rfl
    · rw [if_neg hl]
      right
      refine ⟨?_, hl, rfl⟩
      cases hvv : verify_message line with
      | true => rfl
      | false => exact absurd hvv hv

theorem add_plane_pairwise (p : Str) (planes : List Str) (h : planes.Pairwise sLe) :
    (add_plane p planes).Pairwise sLe :=
  insert_ordered_pairwise (fun q => q) p planes h

theorem control_run_inv_aux :
    ∀ (lines : List Str) (info : Str) (pl : List Str), pl.Pairwise sLe →
      (lines.foldl (fun acc line => (control_step acc info line).1) pl).Pairwise sLe := by
  intro lines
  induction lines with
  | nil => intro info pl h; exact h
  | cons line rest ih =>
    intro info pl h
    rw [List.foldl_cons]
    apply ih
    show List.Pairwise sLe (control_step pl info line).1
    rcases control_step_fst pl info line with hh | ⟨_, _, hh⟩
    · rw [hh]; exact h
    · rw [hh]; exact add_plane_pairwise _ _ h

theorem control_run_inv (info : Str) (lines : List Str) :
    (control_run info lines).Pairwise sLe :=
  control_run_inv_aux lines info [] List.Pairwise.nil

theorem handle_input_events_shapes (m : Str) :
    handle_input_events m = [Ev.regOp, Ev.netWrite] ∨ handle_input_events m = [Ev.regOp] ∨
      handle_input_events m = [] := by
  cases m with
  | nil => right; right; rfl
  | cons c rest =>
    simp only [handle_input_events]
    by_cases h63 : c = 63
    · left; rw [if_pos h63]
    · rw [if_neg h63]
      by_cases h33 : c = 33
      · right; left; rw [if_pos h33]
      · rw [if_neg h33]
        by_cases h64 : c :: rest = [64]
        · left; rw [if_pos h64]
        · right; right; rw [if_neg h64]

theorem mapper_trace_props :
    ∀ lines : List Str,
      reads_unlocked (mapper_handler_events lines) = true ∧
      writes_locked (mapper_handler_events lines) = true ∧
      held_after 0 (mapper_handler_events lines) = 0 := by
  intro lines
  induction lines with
  | nil => exact ⟨rfl, rfl, rfl⟩
  | cons line rest ih =>
    obtain ⟨ihr, ihw, ihh⟩ := ih
    unfold mapper_handler_events
    by_cases hc :
        (line.dropLast.head? = some 63 ∨ line.dropLast.head? = some 33) ∧
          line.dropLast.length < 2
    · rw [if_pos hc]
      refine ⟨?_, ?_, ?_⟩
      · simp [reads_unlocked, reads_unlocked_from] at ihr ⊢
        exact ihr
      · simp [writes_locked, writes_locked_from] at ihw ⊢
        exact ihw
      · simp [held_after] at ihh ⊢
        exact ihh
    · rw [if_neg hc]
      unfold reads_unlocked at ihr
      unfold writes_locked at ihw
      rcases handle_input_events_shapes line.dropLast with hs | hs | hs <;>
        rw [hs] <;>
        refine ⟨?_, ?_, ?_⟩ <;>
        simp [reads_unlocked, reads_unlocked_from, writes_locked, writes_locked_from,
          held_after, ihr, ihw, ihh]

theorem control_trace_props :
    ∀ lines : List Str,
      reads_unlocked (control_handler_events lines) = true ∧
      writes_locked (control_handler_events lines) = true ∧
      held_after 0 (control_handler_events lines) =
        (if has_log_command lines then 1 else 0) := by
  intro lines
  induction lines with
  | nil => exact ⟨rfl, rfl, rfl⟩
  | cons line rest ih =>
    obtain ⟨ihr, ihw, ihh⟩ := ih
    unfold control_handler_events
    by_cases hv : verify_message line = false
    · rw [if_pos hv]
      have hpred : (verify_message line && (line.dropLast == str "log")) = false := by
        rw [hv]
        rfl
      refine ⟨?_, ?_, ?_⟩
      · simp [reads_unlocked, reads_unlocked_from] at ihr ⊢
        exact ihr
      · simp [writes_locked, writes_locked_from] at ihw ⊢
        exact ihw
      · simp [held_after, has_log_command, hpred] at ihh ⊢
        rw [ihh]
    · rw [if_neg hv]
      have hvt : verify_message line = true := by
        cases h : verify_message line with
        | true => rfl
        | false => exact absurd h hv
      by_cases hl : line.dropLast = str "log"
      · rw [if_pos hl]
        have hpred : (verify_message line && (line.dropLast == str "log")) = true := by
          rw [hvt, hl]
          simp
        refine ⟨?_, ?_, ?_⟩
        · simp [reads_unlocked, reads_unlocked_from]
        · simp [writes_locked, writes_locked_from]
        · simp [held_after, has_log_command, hpred]
      · rw [if_neg hl]
        have hpred : (verify_message line && (line.dropLast == str "log")) = false := by
          rw [hvt]
          simp [hl]
        refine ⟨?_, ?_, ?_⟩
        · simp [reads_unlocked, reads_unlocked_from] at ihr ⊢
          exact ihr
        · simp [writes_locked, writes_locked_from] at ihw ⊢
          exact ihw
        · simp [held_after, has_log_command, hpred] at ihh ⊢
          rw [ihh]

theorem countP_range_min (n : Nat) : ∀ m : Nat,
    (List.range m).countP (fun i => decide (i < n)) = min n m := by
  intro m
  induction m with
  | zero => simp
  | succ k ih =>
    rw [List.range_succ, List.countP_append, ih]
    by_cases hk : k < n
    · simp [List.countP_cons, hk]
      omega
    · simp [List.countP_cons, hk]
      omega

theorem accept_loop_spawns_le (results : Nat → Int) (cap : Nat) :
    accept_loop_spawns results cap ≤ cap := by
  unfold accept_loop_spawns
  calc (List.range cap).countP (fun i => decide (0 ≤ results i))
      ≤ (List.range cap).length := List.countP_le_length _
    _ = cap := List.length_range cap

theorem accept_loop_spawns_reach (n cap : Nat) (h : n ≤ cap) :
    accept_loop_spawns (fun i => if i < n then (0 : Int) else (-1)) cap = n := by
  unfold accept_loop_spawns
  have hcong : ∀ i ∈ List.range cap,
      ((decide (0 ≤ (if i < n then (0 : Int) else (-1)))) = true ↔ decide (i < n) = true) := by
    intro i _
    by_cases hi : i < n
    · simp [hi]
    · simp [hi]
  rw [List.countP_congr hcong, countP_range_min]
  omega

/- ======================  theorems: the claims  ====================== -/

/-- Claim C1 is false on the code: on the mapper a lookup dispatch writes its
response inside the critical section (before the release), and on the control
the terminal log dispatch writes its response under the lock and breaks out of
the loop without ever releasing the lock. -/
theorem C1_counterexample :
    io_unlocked (mapper_handler_events [str "?x\n"]) = false ∧
      lock_balanced (control_handler_events [str "log\n"]) = false ∧
      io_unlocked (control_handler_events [str "log\n"]) = false := by
  refine ⟨?_, ?_, ?_⟩ <;> decide

/-- Claim C1 amended: in both handlers every dispatch acquires the shared
lock, performs its registry operation and any response write while still
holding the lock, and releases the lock afterwards — except the control log
dispatch, which sends its response under the lock and terminates the handler
without releasing it (so the lock balance of a control trace is one exactly
when a valid log command was dispatched); the lock is never held while a
network read is performed, and every network write happens under the lock. -/
theorem C1_amended (lines : List Str) :
    reads_unlocked (mapper_handler_events lines) = true ∧
    writes_locked (mapper_handler_events lines) = true ∧
    held_after 0 (mapper_handler_events lines) = 0 ∧
    reads_unlocked (control_handler_events lines) = true ∧
    writes_locked (control_handler_events lines) = true ∧
    held_after 0 (control_handler_events lines) =
      (if has_log_command lines then 1 else 0) := by
  obtain ⟨a, b, c⟩ := mapper_trace_props lines
  obtain ⟨d, e, f⟩ := control_trace_props lines
  exact ⟨a, b, c, d, e, f⟩

/-- Claim C2: on a registry sorted in non-decreasing byte-wise lexicographic
key order, add_plane (control) and the insertion step of add_airport (mapper)
place the new entry after every entry whose key is less-or-equal and before
the first strictly-greater key (so equal keys land after existing ones), grow
the length by exactly one, and keep the registry sorted. -/
theorem C2_insert_sorted :
    (∀ (planes : List Str) (p : Str), planes.Pairwise sLe →
      ∃ l1 l2, planes = l1 ++ l2 ∧ (∀ q ∈ l1, sLe q p) ∧ (∀ q ∈ l2, sLt p q) ∧
        add_plane p planes = l1 ++ p :: l2 ∧
        (add_plane p planes).length = planes.length + 1 ∧
        (add_plane p planes).Pairwise sLe) ∧
    (∀ (airports : List Airport) (a : Airport),
      (airports.map Airport.name).Pairwise sLe →
      ∃ l1 l2, airports = l1 ++ l2 ∧ (∀ b ∈ l1, sLe b.name a.name) ∧
        (∀ b ∈ l2, sLt a.name b.name) ∧
        insert_airport_entry a airports = l1 ++ a :: l2 ∧
        (insert_airport_entry a airports).length = airports.length + 1 ∧
        ((insert_airport_entry a airports).map Airport.name).Pairwise sLe) := by
  constructor
  · intro planes p hp
    obtain ⟨l1, l2, hsplit, h1, h2, hins⟩ :=
      insert_ordered_decomp (fun q => q) p planes hp
    exact ⟨l1, l2, hsplit, h1, h2, hins, insert_ordered_length _ _ _,
      insert_ordered_pairwise _ _ _ hp⟩
  · intro airports a hp
    rw [List.pairwise_map] at hp
    obtain ⟨l1, l2, hsplit, h1, h2, hins⟩ :=
      insert_ordered_decomp Airport.name a airports hp
    refine ⟨l1, l2, hsplit, h1, h2, hins, insert_ordered_length _ _ _, ?_⟩
    rw [List.pairwise_map]
    exact insert_ordered_pairwise _ _ _ hp

/-- Concrete instance of claim C2 at the sorted registry [b] and new key a. -/
theorem C2_insert_sorted_witness :
    ∃ l1 l2, [str "b"] = l1 ++ l2 ∧ (∀ q ∈ l1, sLe q (str "a")) ∧
      (∀ q ∈ l2, sLt (str "a") q) ∧
      add_plane (str "a") [str "b"] = l1 ++ str "a" :: l2 ∧
      (add_plane (str "a") [str "b"]).length = [str "b"].length + 1 ∧
      (add_plane (str "a") [str "b"]).Pairwise sLe :=
  C2_insert_sorted.1 [str "b"] (str "a") (by decide)

/-- Claim C9: each accept loop runs exactly the static capacity (1000)
iterations, one accept call per iteration, so at most 1000 connections are
admitted over the process lifetime; every admission count up to the capacity
is reachable, and the loop never waits on a spawned handler, so no other
bound restricts concurrently live handlers. -/
theorem C9_capacity :
    (∀ results : Nat → Int,
      accept_loop_spawns results maxAirports ≤ 1000 ∧
      accept_loop_spawns results maxPlanes ≤ 1000) ∧
    (∀ n : Nat, n ≤ 1000 → ∃ results : Nat → Int,
      accept_loop_spawns results maxAirports = n ∧
      accept_loop_spawns results maxPlanes = n) := by
  constructor
  · intro results
    exact ⟨accept_loop_spawns_le results maxAirports,
      accept_loop_spawns_le results maxPlanes⟩
  · intro n hn
    exact ⟨fun i => if i < n then 0 else -1,
      accept_loop_spawns_reach n maxAirports hn,
      accept_loop_spawns_reach n maxPlanes hn⟩

/-- Concrete instance of claim C9: the full capacity of 1000 admitted
connections is reachable. -/
theorem C9_capacity_witness :
    ∃ results : Nat → Int,
      accept_loop_spawns results maxAirports = 1000 ∧
      accept_loop_spawns results maxPlanes = 1000 :=
  C9_capacity.2 1000 (by decide)

/-- Claim C10: lookups, enumerations and the log command leave the registry
contents completely unchanged, and every operation either leaves the registry
unchanged or extends it by exactly one entry; the old registry is always a
sublist of the new one, so no entry is ever removed or updated. -/
theorem C10_frame :
    (∀ (m : Str) (l : List Airport),
      l.Sublist (handle_input m l).1 ∧
        ((handle_input m l).1 = l ∨ ((handle_input m l).1).length = l.length + 1)) ∧
    (∀ (id : Str) (l : List Airport), (handle_input (63 :: id) l).1 = l) ∧
    (∀ l : List Airport, (handle_input [64] l).1 = l) ∧
    (∀ (planes : List Str) (info line : Str),
      planes.Sublist (control_step planes info line).1 ∧
        ((control_step planes info line).1 = planes ∨
          ((control_step planes info line).1).length = planes.length + 1)) ∧
    (∀ (planes : List Str) (info : Str),
      (control_step planes info (str "log\n")).1 = planes) := by
  refine ⟨?_, ?_, ?_, ?_, ?_⟩
  · intro m l
    rcases handle_input_fst m l with h | ⟨payload, _, h⟩
    · rw [h]; exact ⟨List.Sublist.refl l, Or.inl rfl⟩
    · rw [h]
      rcases add_airport_cases payload l with hh | ⟨name, port, _, _, _, _, hh⟩
      · rw [hh]; exact ⟨List.Sublist.refl l, Or.inl rfl⟩
      · rw [hh]
        exact ⟨insert_ordered_sublist _ _ _, Or.inr (insert_ordered_length _ _ _)⟩
  · intro id l
    simp [handle_input]
  · intro l
    simp [handle_input]
  · intro planes info line
    rcases control_step_fst planes info line with h | ⟨_, _, h⟩
    · rw [h]; exact ⟨List.Sublist.refl planes, Or.inl rfl⟩
    · rw [h]
      exact ⟨insert_ordered_sublist _ _ _, Or.inr (insert_ordered_length _ _ _)⟩
  · intro planes info
    have hv : verify_message (str "log\n") = true := by decide
    have hd : (str "log\n").dropLast = str "log" := by decide
    unfold control_step
    rw [hd, if_neg (by simp [hv]), if_pos rfl]

/-- Claim C3 is false on the code: the payload a:70000 violates the claimed
port range [1, 65535], yet add_airport registers the entry (a, 70000); the
code never range-checks the port value. -/
theorem C3_counterexample :
    spec_registration_ok (str "a:70000") = false ∧
      add_airport (str "a:70000") [] = [⟨str "a", str "70000"⟩] := by
  refine ⟨?_, ?_⟩ <;> decide

theorem add_airport_noop (cmd name : Str) (l : List Airport)
    (h1 : strtok_first cmd = some name) (h2 : (get_airport_index name l).isSome) :
    add_airport cmd l = l := by
  unfold add_airport
  rw [h1]
  show (if (get_airport_index name l).isSome = true then l else _) = l
  rw [if_pos h2]

/-- Claim C3 amended: the mapper accepts a registration payload exactly when
it decomposes as an optional run of leading colons, a non-empty colon-free id,
a separating run of at least one colon, a non-empty all-digit port token, and
an ignored remainder that is empty or starts with a colon; there is no range
check on the port value.  An accepted payload performs insert-if-absent of
(id, port) at the ordered position; every other payload leaves the registry
unchanged; a bang command never produces a response either way. -/
theorem C3_amended (payload : Str) (l : List Airport) :
    (∀ name port, amended_reg_shape payload name port →
      add_airport payload l =
        (if (get_airport_index name l).isSome = true ∨ is_integer port = false then l
         else insert_airport_entry ⟨name, port⟩ l)) ∧
    ((∀ name port, ¬ amended_reg_shape payload name port) →
      add_airport payload l = l) ∧
    (handle_input (33 :: payload) l).2 = [] := by
  refine ⟨?_, ?_, ?_⟩
  · intro name port hshape
    obtain ⟨h1, h2⟩ := shape_to_tokens payload name port hshape
    obtain ⟨hpne, _⟩ := strtok_token_shape _ _ h2
    have hlen : ¬ (port.length < 1) := by
      cases port with
      | nil => exact absurd rfl hpne
      | cons c t => simp
    unfold add_airport
    rw [h1, h2]
    show (if (get_airport_index name l).isSome = true then l
      else if port.length < 1 ∨ is_integer port = false then l
      else insert_airport_entry ⟨name, port⟩ l) = _
    by_cases hg : (get_airport_index name l).isSome = true
    · rw [if_pos hg, if_pos (Or.inl hg)]
    · by_cases hint : is_integer port = false
      · rw [if_neg hg, if_pos (Or.inr hint), if_pos (Or.inr hint)]
      · rw [if_neg hg, if_neg (by simp [hlen, hint]),
          if_neg (by simp [hg, hint])]
  · intro hno
    rcases add_airport_cases payload l with h | ⟨name, port, h1, h2, _, _, _⟩
    · exact h
    · exact absurd (tokens_to_shape payload name port h1 h2) (hno name port)
  · simp [handle_input]

/-- Concrete instance of the amended claim C3 at the payload a:1 and the empty
registry. -/
theorem C3_amended_witness :
    add_airport (str "a:1") [] = [⟨str "a", str "1"⟩] := by
  have h := (C3_amended (str "a:1") []).1 (str "a") (str "1")
    ⟨0, 1, [], by decide⟩
  rw [h]
  decide

/-- Claim C4 is false on the code: the mapper handler never applies the
framing rules, so the line with payload ?a:b — rejected by verify_message for
its interior colon — is processed as a lookup and draws the response
semicolon-newline instead of being silently dropped. -/
theorem C4_counterexample :
    verify_message (str "?a:b\n") = false ∧
      mapper_step [] (str "?a:b\n") = ([], str ";\n") := by
  refine ⟨?_, ?_⟩ <;> decide

/-- Claim C4 amended: the control handler silently ignores every line that
fails the framing rules (no response, no state change, connection stays
open); the mapper handler performs no framing validation at all — it
unconditionally truncates the final byte and ignores only question-mark or
bang messages whose remaining payload is shorter than two bytes, so other
framing-violating lines can draw responses or registry changes. -/
theorem C4_amended :
    (∀ (planes : List Str) (info line : Str), verify_message line = false →
      control_step planes info line = (planes, [], false)) ∧
    (∀ (airports : List Airport) (line : Str),
      (line.dropLast.head? = some 63 ∨ line.dropLast.head? = some 33) →
      line.dropLast.length < 2 →
      mapper_step airports line = (airports, [])) := by
  constructor
  · intro planes info line hv
    unfold control_step
    rw [if_pos hv]
  · intro airports line h1 h2
    unfold mapper_step
    rw [if_pos ⟨h1, h2⟩]

/-- Concrete instances of the amended claim C4: a carriage-return line is
ignored by the control, and a bare question mark is ignored by the mapper. -/
theorem C4_amended_witness :
    control_step [] (str "info") (str "a" ++ 13 :: str "b\n") = ([], [], false) ∧
      mapper_step [] (str "?\n") = ([], []) := by
  constructor
  · exact C4_amended.1 [] (str "info") (str "a" ++ 13 :: str "b\n") (by decide)
  · exact C4_amended.2 [] (str "?\n") (by decide) (by decide)

/-- Claim C5: on every reachable mapper registry the stored names are free of
duplicates; a registration whose id is already present is a complete no-op
(the duplicate check runs before anything else); and after a second
registration of a stored id with any other port, a lookup still returns the
first-registered port. -/
theorem C5_dedup (lines : List Str) :
    ((mapper_run lines).map Airport.name).Nodup ∧
    (∀ (cmd name : Str), strtok_first cmd = some name →
      (get_airport_index name (mapper_run lines)).isSome = true →
      add_airport cmd (mapper_run lines) = mapper_run lines) ∧
    (∀ (id p2 p1 : Str), lookup_port id (mapper_run lines) = some p1 →
      lookup_port id (add_airport (id ++ 58 :: p2) (mapper_run lines)) = some p1) := by
  refine ⟨(mapper_run_inv lines).2.1, ?_, ?_⟩
  · intro cmd name h1 h2
    exact add_airport_noop cmd name (mapper_run lines) h1 h2
  · intro id p2 p1 hl
    have hsome : (get_airport_index id (mapper_run lines)).isSome = true := by
      unfold lookup_port at hl
      cases h : get_airport_index id (mapper_run lines) with
      | none => rw [h] at hl; simp at hl
      | some i => simp
    have hin : id ∈ (mapper_run lines).map Airport.name := by
      by_contra hni
      rw [← get_airport_index_none_iff] at hni
      rw [hni] at hsome
      simp at hsome
    obtain ⟨a, ha, hna⟩ := List.mem_map.mp hin
    have hprops := (mapper_run_inv lines).2.2 a ha
    have hfirst : strtok_first (id ++ 58 :: p2) = some id := by
      rw [← hna]
      exact strtok_first_clean_sep a.name p2 hprops.1 hprops.2
    rw [add_airport_noop _ _ _ hfirst hsome]
    exact hl

/-- Concrete instance of claim C5: after registering BNE at 8001 and then BNE
at 9000, the lookup still returns 8001. -/
theorem C5_dedup_witness :
    lookup_port (str "BNE")
        (add_airport (str "BNE" ++ 58 :: str "9000")
          (mapper_run [str "!BNE:8001\n"])) = some (str "8001") :=
  (C5_dedup [str "!BNE:8001\n"]).2.2 (str "BNE") (str "9000") (str "8001") (by decide)

/-- Claim C6: a lookup of a non-empty id answers with the port number of the
first entry whose key equals the id followed by a newline when such an entry
exists, and with the single character semicolon followed by a newline when no
entry matches; the registry is untouched. -/
theorem C6_lookup (l : List Airport) (id : Str) (h : id ≠ []) :
    handle_input (63 :: id) l =
      (l, match l.find? (fun a => a.name == id) with
          | some a => a.portNumber ++ [10]
          | none => [59, 10]) := by
  show (l, match get_airport_index id l with
        | none => [59, 10]
        | some i => (l.getD i ⟨[], []⟩).portNumber ++ [10]) = _
  cases hg : get_airport_index id l with
  | none =>
    have hf : l.find? (fun a => a.name == id) = none := by
      rw [← get_airport_index_find l id, hg]
      rfl
    rw [hf]
  | some i =>
    have hf : l.find? (fun a => a.name == id) = some (l.getD i ⟨[], []⟩) := by
      rw [← get_airport_index_find l id, hg]
      rfl
    rw [hf]

/-- Concrete instances of claim C6: after registering BNE at 8001, the lookup
of BNE yields 8001 and the lookup of the unregistered XYZ yields the semicolon
line. -/
theorem C6_lookup_witness :
    handle_input (63 :: str "BNE") (mapper_run [str "!BNE:8001\n"]) =
      (mapper_run [str "!BNE:8001\n"], str "8001" ++ [10]) ∧
    handle_input (63 :: str "XYZ") (mapper_run [str "!BNE:8001\n"]) =
      (mapper_run [str "!BNE:8001\n"], [59, 10]) := by
  constructor
  · have h := C6_lookup (mapper_run [str "!BNE:8001\n"]) (str "BNE") (by decide)
    rw [h]
    decide
  · have h := C6_lookup (mapper_run [str "!BNE:8001\n"]) (str "XYZ") (by decide)
    rw [h]
    decide

/-- Claim C7: on every reachable control log the line log is answered with
every entry in ascending lexicographic order, one per line, followed by a
line holding a single full stop, and the handler closes the connection; on a
fresh control the answer is exactly the full-stop line; log is the only
command that ends the session. -/
theorem C7_log (info : Str) (lines : List Str) :
    control_step (control_run info lines) info (str "log\n") =
      (control_run info lines,
        ((control_run info lines).map (fun p => p ++ [10])).flatten ++ [46, 10],
        true) ∧
    (control_run info lines).Pairwise sLe ∧
    control_step [] info (str "log\n") = ([], [46, 10], true) ∧
    (∀ (planes : List Str) (line : Str),
      (control_step planes info line).2.2 = true ↔
        (verify_message line = true ∧ line.dropLast = str "log")) := by
  have hv : verify_message (str "log\n") = true := by decide
  have hd : (str "log\n").dropLast = str "log" := by decide
  refine ⟨?_, control_run_inv info lines, ?_, ?_⟩
  · unfold control_step
    rw [hd, if_neg (by simp [hv]), if_pos rfl]
  · unfold control_step
    rw [hd, if_neg (by simp [hv]), if_pos rfl]
    simp
  · intro planes line
    unfold control_step
    by_cases hv2 : verify_message line = false
    · rw [if_pos hv2]
      simp [hv2]
    · rw [if_neg hv2]
      have hvt : verify_message line = true := by
        cases hq : verify_message line with
        | true => rfl
        | false => exact absurd hq hv2
      by_cases hl : line.dropLast = str "log"
      · rw [if_pos hl]
        simp [hvt, hl]
      · rw [if_neg hl]
        simp [hvt, hl]

/-- Claim C8: on every reachable mapper registry the literal at-sign line is
answered with one id-colon-port line per registered entry, in non-decreasing
lexicographic key order, with no trailing terminator line; any line that is
not a question-mark, bang or at-sign command draws no response and no state
change. -/
theorem C8_enumeration (lines : List Str) :
    handle_input [64] (mapper_run lines) =
      (mapper_run lines,
        ((mapper_run lines).map
          (fun a => a.name ++ 58 :: a.portNumber ++ [10])).flatten) ∧
    ((mapper_run lines).map Airport.name).Pairwise sLe ∧
    (∀ m : Str, m.head? ≠ some 63 → m.head? ≠ some 33 → m ≠ [64] →
      handle_input m (mapper_run lines) = (mapper_run lines, [])) := by
  refine ⟨?_, (mapper_run_inv lines).1, ?_⟩
  · simp [handle_input]
  · intro m h63 h33 h64
    cases m with
    | nil => rfl
    | cons c rest =>
      have hc63 : c ≠ 63 := by intro hh; apply h63; simp [hh]
      have hc33 : c ≠ 33 := by intro hh; apply h33; simp [hh]
      simp [handle_input, hc63, hc33, h64]

/-- Concrete instance of claim C8: an unrecognized line draws no response. -/
theorem C8_enumeration_witness :
    handle_input (str "hello") (mapper_run []) = (mapper_run [], []) :=
  (C8_enumeration []).2.2 (str "hello") (by decide) (by decide) (by decide)
